import Mathlib

/-!
Verification development for the `pgmanager` resource-leasing broker.

The Rust sources are shallowly embedded: pure data and control flow become
Lean functions, the concurrent accept/lease/release behaviour of the broker
becomes a small-step transition system on an explicit broker state, machine
integers become `Nat` with their bounds made explicit where they matter, and
panicking paths become `Option`/`none`.
-/

namespace PgManager

/-- The `DatabaseConfig` struct from src/lib.rs.  `dbport` is a `u16` in the source;
it is modelled as `Nat` (its values stay below 65536 wherever the source
constructs one). -/
structure DatabaseConfig where
  dbuser : String
  dbpass : String
  dbport : Nat
  dbname : String
  deriving DecidableEq

/-- The wire message enum `Message` from src/lib.rs. -/
inductive Message where
  | Ok : DatabaseConfig → Message
  | Empty : String → Message
  deriving DecidableEq

/-- A process environment: an association list from variable names to values,
modelling `std::env::var` lookups (first binding wins). -/
abbrev Env := List (String × String)

/-- Lookup modelling `std::env::var key`: returning `Ok v` is modelled as `some v`; the
`NotPresent` error as `none` (the `NotUnicode` case has no model: all values
here are unicode strings already). -/
def lookupEnv : Env → String → Option String
  | [], _ => none
  | (k, v) :: rest, key => if k = key then some v else lookupEnv rest key

/-- Decimal digit predicate, `u8::is_ascii_digit` on the byte of the char. -/
def isDigitChar (c : Char) : Bool := decide (48 ≤ c.toNat ∧ c.toNat ≤ 57)

/-- Numeric value of a decimal digit char. -/
def digitVal (c : Char) : Nat := c.toNat - 48

/-- Value of a list of decimal digit chars, most significant first. -/
def digitsVal (l : List Char) : Nat := l.foldl (fun acc c => 10 * acc + digitVal c) 0

/-- Rust's `FromStr` for unsigned integers (`usize`, `u16`, ...): an optional
leading `+`, then one or more ASCII digits, and the value must fit below
`bound` (`2^64` for `usize` on a 64-bit target, `2^16` for `u16`); anything
else is a parse error, modelled as `none`. -/
def parseUnsigned (bound : Nat) (s : String) : Option Nat :=
  let digits := match s.data with
    | '+' :: rest => rest
    | l => l
  if digits ≠ [] ∧ digits.all isDigitChar then
    if digitsVal digits < bound then some (digitsVal digits) else none
  else none

/-- Parsing a `usize` on a 64-bit target. -/
def parseUsize (s : String) : Option Nat := parseUnsigned (2 ^ 64) s

/-- Parsing a `u16`. -/
def parseU16 (s : String) : Option Nat := parseUnsigned (2 ^ 16) s

/-- The function `env_var_with_fallback` from src/util.rs: prefer `key`, fall back to
`fallback_key`, `none` when neither is present. -/
def env_var_with_fallback (env : Env) (key fallback_key : String) : Option String :=
  match lookupEnv env key, lookupEnv env fallback_key with
  | some v, _ => some v
  | none, some v => some v
  | none, none => none

/-- The function `get_prefixed_env_var` from src/util.rs: try `PGM_<key>`, then `key`. -/
def get_prefixed_env_var (env : Env) (key : String) : Option String :=
  env_var_with_fallback env ("PGM_" ++ key) key

/-- The function `env_var::<usize>` from src/util.rs: look the variable up and parse it,
any parse failure collapsing to `none` (`.parse().ok()`). -/
def env_var_usize (env : Env) (key : String) : Option Nat :=
  match get_prefixed_env_var env key with
  | some v => parseUsize v
  | none => none

/-- The `Config` struct from src/core.rs.  The source field `prefix` is a Lean keyword
and is called `pfx` here. -/
structure Config where
  max_databases : Nat
  pfx : String
  deriving DecidableEq

/-- The constructor `Config::from_env` from src/core.rs: pool size from `DATABASE_COUNT`
(default 8), prefix from `DATABASE_PREFIX` or the backend fallback; the
`expect` panic on a missing prefix is modelled as `none`. -/
def Config.from_env (env : Env) (fallback_pfx : Option String) : Option Config :=
  let max_databases := (env_var_usize env "DATABASE_COUNT").getD 8
  match get_prefixed_env_var env "DATABASE_PREFIX" with
  | some p => some ⟨max_databases, p⟩
  | none =>
    match fallback_pfx with
    | some p => some ⟨max_databases, p⟩
    | none => none

/-- Fuel-driven helper for decimal printing; the fuel only bounds the
recursion depth (`natChars` supplies enough for every input). -/
def natCharsAux : Nat → Nat → List Char → List Char
  | 0, _, acc => acc
  | fuel + 1, n, acc =>
    if n < 10 then Char.ofNat (48 + n) :: acc
    else natCharsAux fuel (n / 10) (Char.ofNat (48 + n % 10) :: acc)

/-- Decimal printing of a natural number, digit by digit; this is what
`format!("{}", n)` produces for the unsigned integers of the source. -/
def natChars (n : Nat) : List Char := natCharsAux (n + 1) n []

/-- Decimal printing as a `String`. -/
def natStr (n : Nat) : String := ⟨natChars n⟩

/-- The constructor `DatabaseConfig::with_db` from src/lib.rs: user from `PGUSER` then
`USER` then `"postgres"`, password from `PGPASSWORD` or empty, port from
`PGPORT` when it parses as a `u16`, else 5432. -/
def DatabaseConfig.with_db (env : Env) (dbname : String) : DatabaseConfig :=
  { dbuser := ((lookupEnv env "PGUSER").orElse fun _ => lookupEnv env "USER").getD "postgres"
    dbpass := (lookupEnv env "PGPASSWORD").getD ""
    dbport := ((lookupEnv env "PGPORT").bind parseU16).getD 5432
    dbname := dbname }

/-- The function `build_databases` from src/core.rs, for a backend `from_dbname`: one
resource per index `0..count`, named `prefix` followed by the index.  The
construction tasks are spawned in index order and each appends to the shared
deque; the repository's own unit test (`test_build_databases`) pins the
resulting order to be the index order, which is what this sequential model
produces. -/
def build_databases {D : Type} (from_dbname : String → D) (count : Nat) (pfx : String) :
    List D :=
  (List.range count).map (fun n => from_dbname (pfx ++ natStr n))

/-- Specialization `build_databases::<DatabaseConfig>`: the static named-database backend,
whose `from_dbname` is `DatabaseConfig::with_db`. -/
def build_databases_config (env : Env) (count : Nat) (pfx : String) : List DatabaseConfig :=
  build_databases (DatabaseConfig.with_db env) count pfx

/-- Operation `VecDeque::pop_front` on the list model of the pool (list head = front
of the deque). -/
def popFront {D : Type} : List D → Option (D × List D)
  | [] => none
  | d :: rest => some (d, rest)

/-- Operation `VecDeque::push_back`: append at the tail. -/
def pushBack {D : Type} (pool : List D) (d : D) : List D := pool ++ [d]

/-- The acquire loop of `respond` in src/core.rs: lock the pool, try
`pop_front`; on `None`, sleep 10ms and poll again.  `fuel` counts the polls a
run is allowed; with the pool unchanged between polls (no concurrent
release), exhausting the fuel means the session is still blocked. -/
def acquireLoop {D : Type} : Nat → List D → Option (D × List D)
  | 0, _ => none
  | fuel + 1, pool =>
    match popFront pool with
    | some r => some r
    | none => acquireLoop fuel pool

/-- Outcome of `stream.write_all` in the session handler. -/
inductive WriteResult where
  | ok : WriteResult
  | err : String → WriteResult
  deriving DecidableEq

/-- Outcome of the single `stream.read` in the session handler: `ok n` is
`Ok(n)` with `n` bytes read (`n = 0` is end-of-stream), `err` an IO error. -/
inductive ReadResult where
  | ok : Nat → ReadResult
  | err : String → ReadResult
  deriving DecidableEq

/-- What a session leaves behind after the acquire: the final pool, whether
the resource was pushed back, and the debug log lines it emitted. -/
structure SessionEnd (D : Type) where
  pool : List D
  released : Bool
  logs : List String
  deriving DecidableEq

/-- The tail of `respond` in src/core.rs, after a resource `db` has been
acquired: a write failure is only logged (`debug!`) and control continues;
`stream.flush().unwrap()` never panics because tokio's `UnixStream` has no
write buffer and its `poll_flush` always returns `Ok`; then one read —
exactly on `Ok(0)` (end-of-stream) the resource is pushed back onto the
pool, on any other outcome the task simply ends. -/
def respond_tail {D : Type} (db : D) (w : WriteResult) (r : ReadResult) (pool : List D) :
    SessionEnd D :=
  let logs := match w with
    | .ok => []
    | .err e => ["Failed to write to stream: " ++ e]
  match r with
  | .ok 0 => { pool := pushBack pool db, released := true, logs := logs }
  | _ => { pool := pool, released := false, logs := logs }

/-- Global broker state for the concurrent lease protocol: the pool deque,
the resources currently leased to live sessions, the resources dropped by
sessions that ended without a clean end-of-stream (ghost field for leak
accounting), and the trace of messages written to clients. -/
structure BrokerState (D : Type) where
  pool : List D
  leased : List D
  lost : List D
  msgs : List Message

/-- One step of the broker, for backend projection `cc` (`create_config`):
`acquire` pops the head of a non-empty pool into a new session and writes
that session's `Message::Ok` response; `disconnect` is a session observing
`Ok(0)` on its read and pushing its resource back; `abort` is a session
whose read returned an error or a non-zero count — it ends without pushing
the resource back. -/
inductive Step {D : Type} (cc : D → DatabaseConfig) : BrokerState D → BrokerState D → Prop where
  | acquire (s : BrokerState D) (d : D) (rest : List D) :
      s.pool = d :: rest →
      Step cc s ⟨rest, s.leased ++ [d], s.lost, s.msgs ++ [Message.Ok (cc d)]⟩
  | disconnect (s : BrokerState D) (d : D) (l1 l2 : List D) :
      s.leased = l1 ++ d :: l2 →
      Step cc s ⟨s.pool ++ [d], l1 ++ l2, s.lost, s.msgs⟩
  | abort (s : BrokerState D) (d : D) (l1 l2 : List D) :
      s.leased = l1 ++ d :: l2 →
      Step cc s ⟨s.pool, l1 ++ l2, s.lost ++ [d], s.msgs⟩

/-- States reachable from the freshly built pool `init` (no sessions, no
messages). -/
inductive Reachable {D : Type} (cc : D → DatabaseConfig) (init : List D) : BrokerState D → Prop where
  | init : Reachable cc init ⟨init, [], [], []⟩
  | step {s s' : BrokerState D} : Reachable cc init s → Step cc s s' → Reachable cc init s'

/-- The `std::process::ExitStatus` of one wrapped subprocess invocation: `code`
is `None` when the process was killed by a signal. -/
structure ExitStatus where
  code : Option Int
  deriving DecidableEq

/-- Predicate `ExitStatus::success()`: the process exited with code 0. -/
def ExitStatus.success (st : ExitStatus) : Bool := decide (st.code = some 0)

/-- The conversion `status.code().unwrap_or(1).try_into().expect(...)` from `wrap_each`:
converting the exit code to `u8`, panicking (modelled `none`) outside
`0..=255`. -/
def u8_of_code (i : Int) : Option Nat :=
  if 0 ≤ i ∧ i < 256 then some i.toNat else none

/-- The per-resource loop of `wrap_each` in src/commands.rs, abstracted over
the exit statuses the command produces on successive invocations.  Returns
`(number of invocations actually run, final exit code)`; `none` models the
`expect` panic on an exit code outside `u8` range.  With
`ignore_exit_code = false` a non-success status stops the loop and its code
(`unwrap_or(1)`) becomes the exit code; otherwise every resource is visited
and the exit code stays 0. -/
def wrap_each_loop : List ExitStatus → Bool → Option (Nat × Nat)
  | [], _ => some (0, 0)
  | st :: rest, ignore_exit_code =>
    if ignore_exit_code = false ∧ st.success = false then
      match u8_of_code (st.code.getD 1) with
      | some c => some (1, c)
      | none => none
    else
      match wrap_each_loop rest ignore_exit_code with
      | some (n, c) => some (n + 1, c)
      | none => none

/-- The events the accept loop of `server` (src/core.rs) can observe: a new
connection, or the cancellation token firing. -/
inductive ServerEvent where
  | accept : ServerEvent
  | cancel : ServerEvent
  deriving DecidableEq

/-- The two-armed `select!` loop of `server`: on `accept` it spawns a session
and keeps looping, on `cancel` it breaks.  `some ()` means the loop has
returned; `none` (no cancellation in the trace) means it is still running. -/
def accept_loop : List ServerEvent → Option Unit
  | [] => none
  | ServerEvent.cancel :: _ => some ()
  | ServerEvent.accept :: rest => accept_loop rest

/-- The call `UnixListener::bind` in `start_server`: creates the socket file; binding
an existing path fails (`unwrap` panic, modelled `none`).  The filesystem is
modelled as the list of existing paths. -/
def bind_socket (fs : List String) (path : String) : Option (List String) :=
  if path ∈ fs then none else some (path :: fs)

/-- The task spawned by `start_server`: run the accept loop to completion,
then `std::fs::remove_file(&path)`.  `some fs'` is the state of the
filesystem once the join handle has resolved; `none` means the task has not
finished (no cancellation yet). -/
def server_task (events : List ServerEvent) (fs : List String) (path : String) :
    Option (List String) :=
  match accept_loop events with
  | some _ => some (fs.erase path)
  | none => none

/-- Keep an environment binding unless it names the pool-size variable in
either spelling. -/
def keepPred (p : String × String) : Bool :=
  decide (¬(p.1 = "PGM_DATABASE_COUNT" ∨ p.1 = "DATABASE_COUNT"))

/-- An environment with every spelling of the pool-size variable
(`PGM_DATABASE_COUNT`, `DATABASE_COUNT`) removed. -/
def scrub_count (env : Env) : Env := env.filter keepPred

/-- The whitespace bytes `serde_json` skips between tokens and after the
document: space, tab, line feed, carriage return. -/
def isJsonWs (c : Char) : Bool :=
  c = ' ' || c = '\t' || c = '\n' || c = '\r'

/-- The NUL character (byte 0). -/
def NUL : Char := Char.ofNat 0

/-- Lowercase hexadecimal digit, as `serde_json` prints in `\u00XX`
escapes. -/
def hexDigitChar (n : Nat) : Char :=
  if n < 10 then Char.ofNat (48 + n) else Char.ofNat (87 + n)

/-- How `serde_json` escapes one character inside a JSON string: `"` and
`\` get a backslash, the control characters 0x08/0x09/0x0A/0x0C/0x0D get
their short escapes, every other control character below 0x20 becomes
`\u00XX` with lowercase hex, and everything else is emitted as itself. -/
def escapeChar (c : Char) : List Char :=
  if c = '"' then ['\\', '"']
  else if c = '\\' then ['\\', '\\']
  else if c = Char.ofNat 8 then ['\\', 'b']
  else if c = '\t' then ['\\', 't']
  else if c = '\n' then ['\\', 'n']
  else if c = Char.ofNat 12 then ['\\', 'f']
  else if c = '\r' then ['\\', 'r']
  else if c.toNat < 32 then
    ['\\', 'u', '0', '0', hexDigitChar (c.toNat / 16), hexDigitChar (c.toNat % 16)]
  else [c]

/-- Escape a whole character sequence. -/
def escapeList : List Char → List Char
  | [] => []
  | c :: rest => escapeChar c ++ escapeList rest

/-- A serialized JSON string: quote, escaped contents, quote. -/
def jsonString (s : String) : List Char := '"' :: (escapeList s.data ++ ['"'])

/-- Output of `serde_json::to_string` on a `DatabaseConfig` (fields in declaration
order, compact separators). -/
def encodeConfig (c : DatabaseConfig) : List Char :=
  "\x7b\"dbuser\":".data ++ jsonString c.dbuser
    ++ (",\"dbpass\":".data ++ jsonString c.dbpass
    ++ (",\"dbport\":".data ++ natChars c.dbport
    ++ (",\"dbname\":".data ++ jsonString c.dbname ++ "\x7d".data)))

/-- Output of `serde_json::to_string` on a `Message`: the derive uses external
tagging, so `Message::Ok(config)` becomes an object with single key
`"Ok"`. -/
def encodeMessage : Message → List Char
  | Message.Ok c => "\x7b\"Ok\":".data ++ (encodeConfig c ++ "\x7d".data)
  | Message.Empty s => "\x7b\"Empty\":".data ++ (jsonString s ++ "\x7d".data)

/-- Value of one hexadecimal digit char, upper or lower case. -/
def hexVal (c : Char) : Option Nat :=
  if 48 ≤ c.toNat ∧ c.toNat ≤ 57 then some (c.toNat - 48)
  else if 97 ≤ c.toNat ∧ c.toNat ≤ 102 then some (c.toNat - 87)
  else if 65 ≤ c.toNat ∧ c.toNat ≤ 70 then some (c.toNat - 55)
  else none

/-- Modelled from the spec: the JSON string scanner of
`serde_json::from_str` (the deserializer itself is library code outside
this repository).  Consumes the body of a string up to its closing quote,
resolving escapes; raw control characters and malformed escapes are
errors. -/
def parseStringBody : List Char → Option (List Char × List Char)
  | [] => none
  | c :: rest =>
    if c = '\\' then
      match rest with
      | [] => none
      | e :: rest2 =>
        if e = '"' then (parseStringBody rest2).map (fun p => ('"' :: p.1, p.2))
        else if e = '\\' then (parseStringBody rest2).map (fun p => ('\\' :: p.1, p.2))
        else if e = '/' then (parseStringBody rest2).map (fun p => ('/' :: p.1, p.2))
        else if e = 'b' then (parseStringBody rest2).map (fun p => (Char.ofNat 8 :: p.1, p.2))
        else if e = 't' then (parseStringBody rest2).map (fun p => ('\t' :: p.1, p.2))
        else if e = 'n' then (parseStringBody rest2).map (fun p => ('\n' :: p.1, p.2))
        else if e = 'f' then (parseStringBody rest2).map (fun p => (Char.ofNat 12 :: p.1, p.2))
        else if e = 'r' then (parseStringBody rest2).map (fun p => ('\r' :: p.1, p.2))
        else if e = 'u' then
          match rest2 with
          | h1 :: h2 :: h3 :: h4 :: rest3 =>
            match hexVal h1, hexVal h2, hexVal h3, hexVal h4 with
            | some v1, some v2, some v3, some v4 =>
              (parseStringBody rest3).map
                (fun p => (Char.ofNat (((v1 * 16 + v2) * 16 + v3) * 16 + v4) :: p.1, p.2))
            | _, _, _, _ => none
          | _ => none
        else none
    else if c = '"' then some ([], rest)
    else if c.toNat < 32 then none
    else (parseStringBody rest).map (fun p => (c :: p.1, p.2))

/-- A JSON string including its opening quote. -/
def parseJString (l : List Char) : Option (List Char × List Char) :=
  match l with
  | '"' :: rest => parseStringBody rest
  | _ => none

/-- Expect a literal character sequence and return what follows it. -/
def dropLit : List Char → List Char → Option (List Char)
  | [], l => some l
  | _ :: _, [] => none
  | p :: ps, c :: cs => if c = p then dropLit ps cs else none

/-- A JSON unsigned number: one or more decimal digits. -/
def parseNatFrom (l : List Char) : Option (Nat × List Char) :=
  if l.takeWhile isDigitChar = [] then none
  else some (digitsVal (l.takeWhile isDigitChar), l.dropWhile isDigitChar)

/-- Modelled from the spec: `serde_json` deserialization of a
`DatabaseConfig` object, restricted to the compact field order the broker's
serializer produces. -/
def parseConfig (l : List Char) : Option (DatabaseConfig × List Char) :=
  (dropLit "\x7b\"dbuser\":".data l).bind fun l1 =>
  (parseJString l1).bind fun p1 =>
  (dropLit ",\"dbpass\":".data p1.2).bind fun l3 =>
  (parseJString l3).bind fun p2 =>
  (dropLit ",\"dbport\":".data p2.2).bind fun l5 =>
  (parseNatFrom l5).bind fun p3 =>
  (dropLit ",\"dbname\":".data p3.2).bind fun l7 =>
  (parseJString l7).bind fun p4 =>
  (dropLit "\x7d".data p4.2).map fun l9 =>
  (⟨⟨p1.1⟩, ⟨p2.1⟩, p3.1, ⟨p4.1⟩⟩, l9)

/-- Modelled from the spec: `serde_json` deserialization of a `Message`
(externally tagged enum), restricted to the compact documents the broker
produces. -/
def parseMessage (l : List Char) : Option (Message × List Char) :=
  match dropLit "\x7b\"Ok\":".data l with
  | some l1 =>
    (parseConfig l1).bind fun p =>
    (dropLit "\x7d".data p.2).map fun l3 => (Message.Ok p.1, l3)
  | none =>
    match dropLit "\x7b\"Empty\":".data l with
    | some l1 =>
      (parseJString l1).bind fun p =>
      (dropLit "\x7d".data p.2).map fun l3 => (Message.Empty ⟨p.1⟩, l3)
    | none => none

/-- Modelled from the spec: `serde_json::from_str` parses one JSON document
and then requires everything to the end of the input to be whitespace
(otherwise it fails with "trailing characters").  NUL is not whitespace. -/
def serde_from_str (s : String) : Option Message :=
  match parseMessage s.data with
  | some (m, rest) => if rest.all isJsonWs then some m else none
  | none => none

/-- The client receive buffer of `get_database_from_stream` in src/lib.rs:
`let mut buffer = [b' '; 1024]` — 1024 bytes initialized to ASCII SPACE,
of which `read` overwrites a prefix with the received message.  Bytes are
modelled as chars (exact for the ASCII documents at issue;
`String::from_utf8_lossy` is the identity on them). -/
def recv_buffer (msg : List Char) : List Char :=
  msg.take 1024 ++ List.replicate (1024 - (msg.take 1024).length) ' '

/-- The client function `get_database_from_stream` from src/lib.rs: panic (`none`) if the read
returned 0 bytes; otherwise decode the WHOLE buffer — message plus
space padding, nothing stripped — with `serde_json::from_str`; an `Ok`
message yields its config, an `Empty` message or a parse failure
panics (`none`). -/
def get_database_from_stream (msg : List Char) : Option DatabaseConfig :=
  if msg.length = 0 then none
  else
    match serde_from_str ⟨recv_buffer msg⟩ with
    | some (Message.Ok c) => some c
    | some (Message.Empty _) => none
    | none => none

/-- A concrete success payload used in concrete evaluations. -/
def c4cfg : DatabaseConfig := ⟨"postgres", "", 5432, "test_db_0"⟩

/-- The broker's encoding of `Message::Ok(c4cfg)`. -/
def c4msg : List Char := encodeMessage (Message.Ok c4cfg)

/-- Conservation with leak accounting: in every reachable state the pool,
the leased resources and the lost resources together are exactly the
original pool, as a multiset. -/
theorem conservation {D : Type} (cc : D → DatabaseConfig) (init : List D)
    {s : BrokerState D} (h : Reachable cc init s) :
    (↑s.pool + ↑s.leased + ↑s.lost : Multiset D) = (↑init : Multiset D) := by
  induction h with
  | init => simp
  | step hr hstep ih =>
    cases hstep with
    | acquire d rest hp =>
      rw [← ih, hp]
      simp only [← Multiset.coe_add, ← Multiset.cons_coe, ← Multiset.singleton_add]
      abel
    | disconnect d l1 l2 hl =>
      rw [← ih, hl]
      simp only [← Multiset.coe_add, ← Multiset.cons_coe, ← Multiset.singleton_add]
      abel
    | abort d l1 l2 hl =>
      rw [← ih, hl]
      simp only [← Multiset.coe_add, ← Multiset.cons_coe, ← Multiset.singleton_add]
      abel

theorem dropLit_append (lit rest : List Char) : dropLit lit (lit ++ rest) = some rest := by
  induction lit with
  | nil => rfl
  | cons p ps ih => simp [dropLit, ih]

theorem char_toNat_ofNat {m : Nat} (h : m < 55296) : (Char.ofNat m).toNat = m := by
  simp only [Char.ofNat]
  rw [dif_pos (Or.inl h)]
  rfl

theorem char_ofNat_toNat {c : Char} (h : c.toNat < 55296) : Char.ofNat c.toNat = c := by
  apply Char.eq_of_val_eq
  simp only [Char.ofNat]
  rw [dif_pos (Or.inl h)]
  rfl

theorem hexVal_hexDigitChar : ∀ m, m < 16 → hexVal (hexDigitChar m) = some m := by decide

theorem isDigitChar_ofNat : ∀ d, d < 10 → isDigitChar (Char.ofNat (48 + d)) = true := by decide

theorem digitVal_ofNat : ∀ d, d < 10 → digitVal (Char.ofNat (48 + d)) = d := by decide

theorem parseStringBody_escapeChar (c : Char) (l : List Char) :
    parseStringBody (escapeChar c ++ l)
      = (parseStringBody l).map (fun p => (c :: p.1, p.2)) := by
  by_cases h1 : c = '"'
  · subst h1
    conv_lhs => rw [parseStringBody.eq_def]
    rfl
  · by_cases h2 : c = '\\'
    · subst h2
      conv_lhs => rw [parseStringBody.eq_def]
      rfl
    · by_cases h3 : c = Char.ofNat 8
      · subst h3
        conv_lhs => rw [parseStringBody.eq_def]
        rfl
      · by_cases h4 : c = '\t'
        · subst h4
          conv_lhs => rw [parseStringBody.eq_def]
          rfl
        · by_cases h5 : c = '\n'
          · subst h5
            conv_lhs => rw [parseStringBody.eq_def]
            rfl
          · by_cases h6 : c = Char.ofNat 12
            · subst h6
              conv_lhs => rw [parseStringBody.eq_def]
              rfl
            · by_cases h7 : c = '\r'
              · subst h7
                conv_lhs => rw [parseStringBody.eq_def]
                rfl
              · by_cases h8 : c.toNat < 32
                · have h0 : hexVal '0' = some 0 := by decide
                  have hhi := hexVal_hexDigitChar (c.toNat / 16) (by omega)
                  have hlo := hexVal_hexDigitChar (c.toNat % 16) (by omega)
                  simp only [escapeChar, if_neg h1, if_neg h2, if_neg h3, if_neg h4,
                    if_neg h5, if_neg h6, if_neg h7, if_pos h8]
                  conv_lhs => rw [parseStringBody.eq_def]
                  simp only [List.cons_append, List.nil_append, Char.reduceEq,
                    reduceIte, h0, hhi, hlo]
                  have harith : ((0 * 16 + 0) * 16 + c.toNat / 16) * 16 + c.toNat % 16
                      = c.toNat := by omega
                  rw [harith, char_ofNat_toNat (by omega)]
                · simp only [escapeChar, if_neg h1, if_neg h2, if_neg h3, if_neg h4,
                    if_neg h5, if_neg h6, if_neg h7, if_neg h8, List.cons_append,
                    List.nil_append]
                  conv_lhs => rw [parseStringBody.eq_def]
                  simp only [if_neg h2, if_neg h1, if_neg h8]

theorem parseStringBody_escapeList (s : List Char) (rest : List Char) :
    parseStringBody (escapeList s ++ ('"' :: rest)) = some (s, rest) := by
  induction s with
  | nil =>
    show parseStringBody ('"' :: rest) = some ([], rest)
    conv_lhs => rw [parseStringBody.eq_def]
    rfl
  | cons c t ih =>
    show parseStringBody ((escapeChar c ++ escapeList t) ++ ('"' :: rest)) = _
    rw [List.append_assoc, parseStringBody_escapeChar, ih]
    rfl

theorem parseJString_jsonString (s : String) (rest : List Char) :
    parseJString (jsonString s ++ rest) = some (s.data, rest) := by
  show parseJString (('"' :: (escapeList s.data ++ ['"'])) ++ rest) = _
  rw [List.cons_append, List.append_assoc]
  show parseStringBody (escapeList s.data ++ ('"' :: rest)) = _
  exact parseStringBody_escapeList s.data rest

theorem natCharsAux_append (fuel n : Nat) (acc : List Char) :
    natCharsAux fuel n acc = natCharsAux fuel n [] ++ acc := by
  induction fuel generalizing n acc with
  | zero => rfl
  | succ f ih =>
    by_cases h : n < 10
    · simp [natCharsAux, h]
    · simp only [natCharsAux, if_neg h]
      rw [ih (n / 10) (Char.ofNat (48 + n % 10) :: acc),
        ih (n / 10) (Char.ofNat (48 + n % 10) :: [])]
      simp

theorem natCharsAux_digits (fuel n : Nat) :
    ∀ c ∈ natCharsAux fuel n [], isDigitChar c = true := by
  induction fuel generalizing n with
  | zero => intro c hc; simp [natCharsAux] at hc
  | succ f ih =>
    intro c hc
    by_cases h : n < 10
    · simp only [natCharsAux, if_pos h, List.mem_singleton] at hc
      rw [hc]
      exact isDigitChar_ofNat n h
    · simp only [natCharsAux, if_neg h] at hc
      rw [natCharsAux_append] at hc
      simp only [List.mem_append, List.mem_singleton] at hc
      rcases hc with hc | hc
      · exact ih _ c hc
      · rw [hc]
        exact isDigitChar_ofNat (n % 10) (by omega)

theorem natCharsAux_ne_nil (fuel n : Nat) (h : 1 ≤ fuel) : natCharsAux fuel n [] ≠ [] := by
  cases fuel with
  | zero => omega
  | succ f =>
    by_cases h10 : n < 10
    · simp [natCharsAux, h10]
    · simp only [natCharsAux, if_neg h10]
      rw [natCharsAux_append]
      simp

theorem digitsVal_append_digit (l : List Char) (c : Char) :
    digitsVal (l ++ [c]) = 10 * digitsVal l + digitVal c := by
  simp [digitsVal, List.foldl_append]

theorem digitsVal_natCharsAux (fuel n : Nat) (h : n < 10 ^ fuel) :
    digitsVal (natCharsAux fuel n []) = n := by
  induction fuel generalizing n with
  | zero =>
    have : n = 0 := by simpa using h
    subst this
    rfl
  | succ f ih =>
    by_cases h10 : n < 10
    · have hd := digitVal_ofNat n h10
      simp [natCharsAux, h10, digitsVal, hd]
    · simp only [natCharsAux, if_neg h10]
      rw [natCharsAux_append, digitsVal_append_digit]
      have hdiv : n / 10 < 10 ^ f := by
        rw [Nat.div_lt_iff_lt_mul (by omega : 0 < 10)]
        rw [pow_succ] at h
        omega
      rw [ih (n / 10) hdiv, digitVal_ofNat (n % 10) (by omega)]
      omega

theorem digitsVal_natChars (n : Nat) : digitsVal (natChars n) = n := by
  have hb : n < 10 ^ (n + 1) := by
    calc n < 10 ^ n := Nat.lt_pow_self (by omega) n
    _ ≤ 10 ^ (n + 1) := Nat.pow_le_pow_right (by omega) (by omega)
  exact digitsVal_natCharsAux (n + 1) n hb

theorem takeWhile_append_of_all (p : Char → Bool) (l1 l2 : List Char)
    (h1 : ∀ c ∈ l1, p c = true) (h2 : ∀ c, l2.head? = some c → p c = false) :
    (l1 ++ l2).takeWhile p = l1 ∧ (l1 ++ l2).dropWhile p = l2 := by
  induction l1 with
  | nil =>
    simp only [List.nil_append]
    cases l2 with
    | nil => simp
    | cons c t =>
      have hc := h2 c rfl
      simp [List.takeWhile_cons, List.dropWhile_cons, hc]
  | cons a l ih =>
    have ha := h1 a (List.mem_cons_self a l)
    obtain ⟨iht, ihd⟩ := ih (fun c hc => h1 c (List.mem_cons_of_mem a hc))
    simp [List.takeWhile_cons, List.dropWhile_cons, ha, iht, ihd]

theorem parseNatFrom_natChars (n : Nat) (rest : List Char)
    (hrest : ∀ c, rest.head? = some c → isDigitChar c = false) :
    parseNatFrom (natChars n ++ rest) = some (n, rest) := by
  obtain ⟨htake, hdrop⟩ := takeWhile_append_of_all isDigitChar (natChars n) rest
    (fun c hc => natCharsAux_digits (n + 1) n c hc) hrest
  have hne : natChars n ≠ [] := natCharsAux_ne_nil (n + 1) n (by omega)
  unfold parseNatFrom
  rw [htake, hdrop, if_neg hne, digitsVal_natChars]

theorem parseConfig_encodeConfig (c : DatabaseConfig) (rest : List Char) :
    parseConfig (encodeConfig c ++ rest) = some (c, rest) := by
  obtain ⟨u, pw, port, nm⟩ := c
  have hnat := parseNatFrom_natChars port
    (",\"dbname\":".data ++ (jsonString nm ++ ("\x7d".data ++ rest)))
    (fun ch hch => by
      have : some ',' = some ch := hch
      injection this with hc
      rw [← hc]
      decide)
  simp only [encodeConfig, List.append_assoc]
  simp only [parseConfig, dropLit_append, Option.some_bind, parseJString_jsonString, hnat]
  rfl

theorem parseMessage_encodeOk (c : DatabaseConfig) (rest : List Char) :
    parseMessage (encodeMessage (Message.Ok c) ++ rest) = some (Message.Ok c, rest) := by
  simp only [encodeMessage, List.append_assoc]
  simp only [parseMessage, dropLit_append, parseConfig_encodeConfig, Option.some_bind]
  rfl

theorem replicate_space_all_ws (k : Nat) : (List.replicate k ' ').all isJsonWs = true := by
  rw [List.all_eq_true]
  intro x hx
  rw [List.eq_of_mem_replicate hx]
  decide

theorem lookupEnv_scrub (env : Env) (key : String)
    (h1 : key ≠ "PGM_DATABASE_COUNT") (h2 : key ≠ "DATABASE_COUNT") :
    lookupEnv (scrub_count env) key = lookupEnv env key := by
  induction env with
  | nil => rfl
  | cons p rest ih =>
    rcases p with ⟨k, v⟩
    show lookupEnv (List.filter keepPred ((k, v) :: rest)) key = _
    rw [List.filter_cons]
    by_cases hk : k = "PGM_DATABASE_COUNT" ∨ k = "DATABASE_COUNT"
    · have hp : keepPred (k, v) = false := by simp [keepPred]; tauto
      have hkne : k ≠ key := by
        rintro rfl
        rcases hk with h | h
        · exact h1 h
        · exact h2 h
      rw [hp]
      simp only [Bool.false_eq_true, if_false]
      have : lookupEnv ((k, v) :: rest) key = lookupEnv rest key := by
        simp [lookupEnv, hkne]
      rw [this]
      exact ih
    · have hp : keepPred (k, v) = true := by simp [keepPred]; tauto
      rw [hp, if_pos rfl]
      by_cases hke : k = key
      · simp [lookupEnv, hke]
      · simp only [lookupEnv, hke, if_false]
        exact ih

theorem lookupEnv_scrub_none (env : Env) (key : String)
    (h : key = "PGM_DATABASE_COUNT" ∨ key = "DATABASE_COUNT") :
    lookupEnv (scrub_count env) key = none := by
  induction env with
  | nil => rfl
  | cons p rest ih =>
    rcases p with ⟨k, v⟩
    show lookupEnv (List.filter keepPred ((k, v) :: rest)) key = none
    rw [List.filter_cons]
    by_cases hp : keepPred (k, v) = true
    · rw [if_pos hp]
      have hkne : k ≠ key := by
        rintro rfl
        simp [keepPred] at hp
        rcases h with h | h
        · exact hp.1 h
        · exact hp.2 h
      simp [lookupEnv, hkne]
      exact ih
    · rw [if_neg hp]
      exact ih

/-- C1: Pool-membership conservation.  In every reachable broker state in
which every finished session ended with a clean client disconnect (nothing
was lost), the pool contents together with the currently leased resources
are, as a multiset, exactly the original resources built at startup; in
particular repeated acquire/release never changes the total count. -/
theorem pool_membership_conservation {D : Type} (cc : D → DatabaseConfig) (init : List D)
    {s : BrokerState D} (h : Reachable cc init s) (hlost : s.lost = []) :
    (↑s.pool + ↑s.leased : Multiset D) = (↑init : Multiset D)
    ∧ s.pool.length + s.leased.length = init.length := by
  have hc := conservation cc init h
  rw [hlost] at hc
  simp only [Multiset.coe_nil, add_zero] at hc
  refine ⟨hc, ?_⟩
  have hcard := congrArg Multiset.card hc
  simpa using hcard

/-- Witness for C1: the pool `[0, 1]`, one session that acquires `0` and
then disconnects, leaving the pool `[1, 0]` with nothing leased. -/
theorem pool_membership_conservation_witness :
    ((↑([1, 0] : List Nat) + ↑([] : List Nat) : Multiset Nat) = (↑([0, 1] : List Nat) : Multiset Nat))
    ∧ ([1, 0] : List Nat).length + ([] : List Nat).length = ([0, 1] : List Nat).length :=
  pool_membership_conservation (fun _ => ⟨"", "", 0, ""⟩) [0, 1]
    (Reachable.step (Reachable.step Reachable.init (Step.acquire _ 0 [1] rfl))
      (Step.disconnect _ 0 [] [] rfl)) rfl

/-- C2: the pool is a FIFO queue.  On a non-empty pool the acquire loop
removes and returns the head of the collection; on an empty pool it never
returns, however long it polls (the session blocks); release appends the
resource at the tail, and a subsequent acquire on the grown pool succeeds. -/
theorem pool_fifo {D : Type} (pool : List D) (d : D) (fuel : Nat) (h : pool ≠ []) :
    acquireLoop (fuel + 1) pool = some (pool.head h, pool.tail)
    ∧ acquireLoop fuel ([] : List D) = none
    ∧ pushBack pool d = pool ++ [d]
    ∧ (pushBack pool d).getLast? = some d
    ∧ acquireLoop (fuel + 1) (pushBack pool d) ≠ none := by
  refine ⟨?_, ?_, rfl, ?_, ?_⟩
  · cases pool with
    | nil => exact absurd rfl h
    | cons a t => simp [acquireLoop, popFront]
  · induction fuel with
    | zero => rfl
    | succ n ihn => simpa [acquireLoop, popFront] using ihn
  · simp [pushBack]
  · cases pool with
    | nil => simp [pushBack, acquireLoop, popFront]
    | cons a t => simp [pushBack, acquireLoop, popFront]

/-- Witness for C2 at the concrete pool `[5, 6]` with released resource `7`. -/
theorem pool_fifo_witness :
    acquireLoop 1 ([5, 6] : List Nat) = some (5, [6])
    ∧ acquireLoop 0 ([] : List Nat) = none
    ∧ pushBack [5, 6] 7 = [5, 6, 7]
    ∧ (pushBack [5, 6] 7).getLast? = some 7
    ∧ acquireLoop 1 (pushBack [5, 6] 7) ≠ none :=
  pool_fifo [5, 6] 7 0 (by decide)

/-- C3: a failed framed write of the lease response is logged and does not
change anything about the rest of the session: the pool evolution and the
release decision are identical to those of a successful write, and on a
clean end-of-stream the acquired resource is still pushed back. -/
theorem write_failure_does_not_prevent_release {D : Type} (db : D) (e : String)
    (r : ReadResult) (pool : List D) :
    (respond_tail db (.err e) r pool).pool = (respond_tail db .ok r pool).pool
    ∧ (respond_tail db (.err e) r pool).released = (respond_tail db .ok r pool).released
    ∧ ("Failed to write to stream: " ++ e) ∈ (respond_tail db (.err e) r pool).logs
    ∧ (r = .ok 0 →
        (respond_tail db (.err e) r pool).pool = pool ++ [db]
        ∧ (respond_tail db (.err e) r pool).released = true) := by
  rcases r with n | msg
  · rcases n with _ | n <;> simp [respond_tail, pushBack]
  · simp [respond_tail]

/-- Witness for C3: a broken-pipe write failure followed by end-of-stream
still returns resource `1` to the (empty) pool. -/
theorem write_failure_does_not_prevent_release_witness :
    (respond_tail (D := Nat) 1 (WriteResult.err "broken pipe") (ReadResult.ok 0) []).pool = [1]
    ∧ (respond_tail (D := Nat) 1 (WriteResult.err "broken pipe") (ReadResult.ok 0) []).released
        = true :=
  (write_failure_does_not_prevent_release 1 "broken pipe" (ReadResult.ok 0) []).2.2.2 rfl

/-- C5: the broker never sends an `Empty` message: every message in the wire
trace of every reachable state is `Ok`-tagged, and on an empty pool the
acquire loop polls forever instead of producing anything. -/
theorem broker_never_sends_empty {D : Type} (cc : D → DatabaseConfig) (init : List D)
    {s : BrokerState D} (h : Reachable cc init s) :
    (∀ m ∈ s.msgs, ∃ c, m = Message.Ok c)
    ∧ ∀ fuel, acquireLoop fuel ([] : List D) = none := by
  constructor
  · induction h with
    | init => simp
    | step hr hstep ih =>
      cases hstep with
      | acquire d rest hp =>
        intro m hm
        simp only [List.mem_append, List.mem_singleton] at hm
        rcases hm with hm | hm
        · exact ih m hm
        · exact ⟨cc d, hm⟩
      | disconnect d l1 l2 hl => exact ih
      | abort d l1 l2 hl => exact ih
  · intro fuel
    induction fuel with
    | zero => rfl
    | succ n ihn => simpa [acquireLoop, popFront] using ihn

/-- Witness for C5: after one acquire from the pool `[0]` the trace holds
exactly one message and it is `Ok`-tagged. -/
theorem broker_never_sends_empty_witness :
    (∀ m ∈ [Message.Ok (DatabaseConfig.mk "" "" 0 "")], ∃ c, m = Message.Ok c)
    ∧ ∀ fuel, acquireLoop fuel ([] : List Nat) = none :=
  broker_never_sends_empty (fun _ => ⟨"", "", 0, ""⟩) [0]
    (Reachable.step Reachable.init (Step.acquire _ 0 [] rfl))

/-- C9: a session returns its resource only on a clean end-of-stream.  Any
other read outcome (an error, or a non-zero byte count) leaves the pool
untouched and releases nothing; at the broker level the lost set only ever
grows along steps, and every reachable state accounts for the original pool
exactly as pool + leased + lost — so a resource lost once is out of
circulation for the life of the broker. -/
theorem resource_lost_without_eof {D : Type} (cc : D → DatabaseConfig) (init : List D) :
    (∀ (db : D) (w : WriteResult) (r : ReadResult) (pool : List D),
        r ≠ ReadResult.ok 0 →
        (respond_tail db w r pool).pool = pool ∧ (respond_tail db w r pool).released = false)
    ∧ (∀ s s' : BrokerState D, Step cc s s' → ∀ d ∈ s.lost, d ∈ s'.lost)
    ∧ (∀ s : BrokerState D, Reachable cc init s →
        (↑s.pool + ↑s.leased + ↑s.lost : Multiset D) = (↑init : Multiset D)) := by
  refine ⟨?_, ?_, fun s hs => conservation cc init hs⟩
  · intro db w r pool hr
    rcases r with n | msg
    · rcases n with _ | n
      · exact absurd rfl hr
      · simp [respond_tail]
    · simp [respond_tail]
  · intro s s' hstep d hd
    cases hstep with
    | acquire d' rest hp => exact hd
    | disconnect d' l1 l2 hl => exact hd
    | abort d' l1 l2 hl => exact List.mem_append_left _ hd

/-- Witness for C9: a read error keeps the pool unchanged and releases
nothing; a previously lost resource `3` survives an abort step; and a
reachable state that lost resource `0` accounts for the original pool `[0]`
as pool + leased + lost. -/
theorem resource_lost_without_eof_witness :
    ((respond_tail (D := Nat) 0 WriteResult.ok (ReadResult.err "connection reset") []).pool = []
      ∧ (respond_tail (D := Nat) 0 WriteResult.ok
          (ReadResult.err "connection reset") []).released = false)
    ∧ (3 : Nat) ∈ ([3, 0] : List Nat)
    ∧ ((↑([] : List Nat) + ↑([] : List Nat) + ↑([0] : List Nat) : Multiset Nat)
        = (↑([0] : List Nat) : Multiset Nat)) :=
  ⟨(resource_lost_without_eof (fun _ => ⟨"", "", 0, ""⟩) [0]).1 0 WriteResult.ok
      (ReadResult.err "connection reset") [] (by decide),
   (resource_lost_without_eof (fun _ => ⟨"", "", 0, ""⟩) [0]).2.1 ⟨[], [0], [3], []⟩ _
      (Step.abort _ 0 [] [] rfl) 3 (by decide),
   (resource_lost_without_eof (fun _ => ⟨"", "", 0, ""⟩) [0]).2.2 _
      (Reachable.step (Reachable.step Reachable.init (Step.acquire _ 0 [] rfl))
        (Step.abort _ 0 [] [] rfl))⟩

set_option maxRecDepth 16384 in
/-- C4 counterexample: the claim says the client strips embedded NUL
padding bytes from its fixed-size receive buffer before parsing.  At a
concrete success response: the receive buffer holds no NUL byte at all (the
padding is ASCII SPACE, the buffer's initial value), the full 1024-byte
buffer — padding included, nothing stripped — is what gets parsed, and if
the padding were NUL as the claim describes, the parse would fail with
trailing characters instead of succeeding. -/
theorem nul_padding_not_stripped :
    (recv_buffer c4msg).length = 1024
    ∧ (recv_buffer c4msg).all (fun ch => ch != NUL) = true
    ∧ (recv_buffer c4msg).getLast? = some ' '
    ∧ serde_from_str ⟨c4msg ++ List.replicate (1024 - c4msg.length) NUL⟩ = none
    ∧ get_database_from_stream c4msg = some c4cfg := by
  refine ⟨by decide, by decide, by decide, by decide, by decide⟩

/-- C4 (amended): the client's 1024-byte receive buffer is initialized with
ASCII SPACE bytes, so a success response shorter than the buffer is
followed by space padding, which the JSON deserializer accepts as trailing
whitespace; nothing is stripped and no NUL bytes are involved.  Any valid
serialized `Ok` message no longer than the buffer decodes to the correct
`DatabaseConfig`. -/
theorem client_decodes_space_padded (c : DatabaseConfig)
    (hlen : (encodeMessage (Message.Ok c)).length ≤ 1024) :
    get_database_from_stream (encodeMessage (Message.Ok c)) = some c := by
  have hlen0 : (encodeMessage (Message.Ok c)).length ≠ 0 := by
    have h6 : ("\x7b\"Ok\":".data).length = 6 := rfl
    simp only [encodeMessage, List.length_append, h6]
    omega
  have hs : serde_from_str ⟨recv_buffer (encodeMessage (Message.Ok c))⟩
      = some (Message.Ok c) := by
    unfold serde_from_str recv_buffer
    rw [List.take_of_length_le hlen]
    have hdata : (String.mk (encodeMessage (Message.Ok c)
        ++ List.replicate (1024 - (encodeMessage (Message.Ok c)).length) ' ')).data
        = encodeMessage (Message.Ok c)
          ++ List.replicate (1024 - (encodeMessage (Message.Ok c)).length) ' ' := rfl
    rw [hdata, parseMessage_encodeOk]
    show (if (List.replicate (1024 - (encodeMessage (Message.Ok c)).length) ' ').all isJsonWs
          = true then some (Message.Ok c) else none) = some (Message.Ok c)
    rw [if_pos (replicate_space_all_ws _)]
  unfold get_database_from_stream
  rw [if_neg hlen0, hs]

/-- Witness for the amended C4 at the concrete config `c4cfg`. -/
theorem client_decodes_space_padded_witness :
    (encodeMessage (Message.Ok c4cfg)).length ≤ 1024
    ∧ get_database_from_stream (encodeMessage (Message.Ok c4cfg)) = some c4cfg :=
  ⟨by decide, client_decodes_space_padded c4cfg (by decide)⟩

/-- C6: with prefix `"test_db_"` and count 2, the pool built at startup
holds exactly the resources named by appending each index to the prefix, so
the first two acquires lease `test_db_0` and then `test_db_1`. -/
theorem build_databases_first_two (env : Env) :
    (build_databases_config env 2 "test_db_").map DatabaseConfig.dbname
        = ["test_db_0", "test_db_1"]
    ∧ ∃ d0 rest d1,
        popFront (build_databases_config env 2 "test_db_") = some (d0, rest)
        ∧ d0.dbname = "test_db_0"
        ∧ popFront rest = some (d1, [])
        ∧ d1.dbname = "test_db_1" := by
  constructor
  · rfl
  · exact ⟨_, _, _, rfl, rfl, rfl, rfl⟩

/-- C7: `wrap-each` over a pool of 3 resources where the command fails on
the 2nd invocation with exit code `c`: with `ignore_exit_code = false` the
loop stops after the 2nd invocation (the 3rd never runs) and returns `c`;
with `ignore_exit_code = true` all 3 invocations run and the exit code
is 0. -/
theorem wrap_each_second_fails (s0 s1 s2 : ExitStatus) (c : Int)
    (h0 : s0.success = true) (h1 : s1.code = some c) (hc : c ≠ 0)
    (hcl : 0 ≤ c) (hcu : c < 256) :
    wrap_each_loop [s0, s1, s2] false = some (2, c.toNat)
    ∧ wrap_each_loop [s0, s1, s2] true = some (3, 0) := by
  have hs1 : s1.success = false := by
    simp [ExitStatus.success, h1, hc]
  constructor
  · simp [wrap_each_loop, h0, hs1, u8_of_code, h1, hcl, hcu]
  · simp [wrap_each_loop]

/-- Witness for C7: invocations exiting 0, 7, 0. -/
theorem wrap_each_second_fails_witness :
    wrap_each_loop [⟨some 0⟩, ⟨some 7⟩, ⟨some 0⟩] false = some (2, (7 : Int).toNat)
    ∧ wrap_each_loop [⟨some 0⟩, ⟨some 7⟩, ⟨some 0⟩] true = some (3, 0) :=
  wrap_each_second_fails ⟨some 0⟩ ⟨some 7⟩ ⟨some 0⟩ 7 (by decide) rfl (by decide)
    (by decide) (by decide)

/-- C8: shutdown postcondition.  For a broker whose socket was bound (the
bind created the socket file) and whose accept-loop task has been awaited to
completion (the task resolved, which only happens after cancellation fired
and `remove_file` ran), the socket path no longer exists on the
filesystem. -/
theorem socket_removed_after_shutdown (events : List ServerEvent)
    (fs fs1 fs2 : List String) (path : String)
    (hbind : bind_socket fs path = some fs1)
    (hjoin : server_task events fs1 path = some fs2) :
    path ∉ fs2 := by
  by_cases hmem : path ∈ fs
  · simp [bind_socket, hmem] at hbind
  · rw [bind_socket, if_neg hmem] at hbind
    injection hbind with hfs1
    cases haccept : accept_loop events with
    | none => simp [server_task, haccept] at hjoin
    | some u =>
      simp only [server_task, haccept] at hjoin
      injection hjoin with hfs2
      rw [← hfs2, ← hfs1, List.erase_cons_head]
      exact hmem

/-- Witness for C8: one accepted connection, then cancellation; the socket
file is gone once the task resolves. -/
theorem socket_removed_after_shutdown_witness :
    "tmp/pgmanager.sock" ∉ ([] : List String) :=
  socket_removed_after_shutdown [ServerEvent.accept, ServerEvent.cancel] []
    ["tmp/pgmanager.sock"] [] "tmp/pgmanager.sock" (by decide) (by decide)

/-- C10: a `DATABASE_COUNT` (or `PGM_DATABASE_COUNT`) value that does not
parse as an unsigned integer does not make startup fail: `Config::from_env`
behaves exactly as if the variable were unset, and any configuration it
produces has the default pool size 8. -/
theorem bad_count_falls_back_to_default (env : Env) (fallback_pfx : Option String) (v : String)
    (hv : get_prefixed_env_var env "DATABASE_COUNT" = some v)
    (hp : parseUsize v = none) :
    Config.from_env env fallback_pfx = Config.from_env (scrub_count env) fallback_pfx
    ∧ ∀ cfg, Config.from_env env fallback_pfx = some cfg → cfg.max_databases = 8 := by
  have h8 : env_var_usize env "DATABASE_COUNT" = none := by
    simp [env_var_usize, hv, hp]
  have hscount : env_var_usize (scrub_count env) "DATABASE_COUNT" = none := by
    have hn1 := lookupEnv_scrub_none env "PGM_DATABASE_COUNT" (Or.inl rfl)
    have hn2 := lookupEnv_scrub_none env "DATABASE_COUNT" (Or.inr rfl)
    simp only [env_var_usize, get_prefixed_env_var, env_var_with_fallback]
    rw [show ("PGM_" ++ "DATABASE_COUNT" : String) = "PGM_DATABASE_COUNT" from rfl, hn1, hn2]
  have hpfx : get_prefixed_env_var (scrub_count env) "DATABASE_PREFIX"
      = get_prefixed_env_var env "DATABASE_PREFIX" := by
    have he1 := lookupEnv_scrub env "PGM_DATABASE_PREFIX" (by decide) (by decide)
    have he2 := lookupEnv_scrub env "DATABASE_PREFIX" (by decide) (by decide)
    simp only [get_prefixed_env_var, env_var_with_fallback]
    rw [show ("PGM_" ++ "DATABASE_PREFIX" : String) = "PGM_DATABASE_PREFIX" from rfl, he1, he2]
  constructor
  · simp only [Config.from_env, h8, hscount, hpfx]
  · intro cfg hcfg
    simp only [Config.from_env, h8, Option.getD_none] at hcfg
    rcases hpfxcase : get_prefixed_env_var env "DATABASE_PREFIX" with _ | p
    · rw [hpfxcase] at hcfg
      rcases fallback_pfx with _ | q
      · exact absurd hcfg (by simp)
      · injection hcfg with hcfg
        rw [← hcfg]
    · rw [hpfxcase] at hcfg
      injection hcfg with hcfg
      rw [← hcfg]

/-- Witness for C10: `DATABASE_COUNT=eight` with a valid prefix yields the
default pool size 8 and the same configuration as the scrubbed
environment. -/
theorem bad_count_falls_back_to_default_witness :
    (Config.from_env [("DATABASE_COUNT", "eight"), ("DATABASE_PREFIX", "db_")] none
      = Config.from_env
          (scrub_count [("DATABASE_COUNT", "eight"), ("DATABASE_PREFIX", "db_")]) none)
    ∧ (Config.mk 8 "db_").max_databases = 8 :=
  ⟨(bad_count_falls_back_to_default [("DATABASE_COUNT", "eight"), ("DATABASE_PREFIX", "db_")]
      none "eight" (by decide) (by decide)).1,
   (bad_count_falls_back_to_default [("DATABASE_COUNT", "eight"), ("DATABASE_PREFIX", "db_")]
      none "eight" (by decide) (by decide)).2 ⟨8, "db_"⟩ (by decide)⟩

end PgManager
